import Mathlib

/-!
# Verification of the xcode-runner CLI

Shallow embedding of the parsing and decision logic of the `xcode-runner`
Go program (files `xcode-runner.go` and its sibling revision), together
with proofs of the specification's testable properties.

Go strings are modeled as lists of characters (`Str`).  All device/scheme
listing content relevant to the claims is processed character-wise in the
source (ASCII markers, single-byte delimiters), so the rune-level model is
faithful at every index the source slices at.
-/

set_option autoImplicit false

namespace XcodeRunner

/-- Go strings, modeled as rune sequences. -/
abbrev Str := List Char

/-- Outcome of a Go function: a normal value, a returned `error`, or a
runtime panic (e.g. a failed type assertion or an out-of-range slice). -/
inductive GoResult (ε α : Type) where
  | ok (a : α)
  | err (e : ε)
  | panic
  deriving DecidableEq, Repr

/-- Tests whether the result is a returned `error` value. -/
def GoResult.isErr {ε α : Type} : GoResult ε α → Bool
  | .err _ => true
  | _ => false

/-! ## Go string primitives -/

/-- Go `strings.TrimSpace`: drop leading and trailing whitespace. -/
def trimSpace (s : Str) : Str :=
  ((s.dropWhile Char.isWhitespace).reverse.dropWhile Char.isWhitespace).reverse

/-- Go `strings.HasPrefix(s, p)` (argument order: pattern first). -/
def hasPrefix : Str → Str → Bool
  | [], _ => true
  | _ :: _, [] => false
  | p :: ps, c :: cs => p = c && hasPrefix ps cs

/-- Go `strings.Contains(hay, needle)`. -/
def containsSub : Str → Str → Bool
  | hay, needle =>
    match hay with
    | [] => decide (needle = [])
    | _ :: rest => hasPrefix needle hay || containsSub rest needle

/-- Go `strings.TrimSuffix(s, suf)`: remove one trailing copy of `suf` if present. -/
def trimSuffix (s suf : Str) : Str :=
  if hasPrefix suf.reverse s.reverse then s.take (s.length - suf.length) else s

/-- Go `strings.LastIndex(s, c)` for a single-character needle, as an `Option`. -/
def lastIndexOf : Str → Char → Option Nat
  | [], _ => none
  | a :: rest, c =>
    match lastIndexOf rest c with
    | some i => some (i + 1)
    | none => if a = c then some 0 else none

/-! ## Association-list maps (Go `map[string]V` contents) -/

/-- Lookup by key in an association list (Go map indexing). -/
def lookupKey {β : Type} (k : Str) : List (Str × β) → Option β
  | [] => none
  | (k', v) :: rest => if k' = k then some v else lookupKey k rest

/-- Insert with overwrite (Go `m[k] = v`); keeps keys unique. -/
def mapInsert {β : Type} (m : List (Str × β)) (k : Str) (v : β) : List (Str × β) :=
  match m with
  | [] => [(k, v)]
  | (k', v') :: rest => if k' = k then (k, v) :: rest else (k', v') :: mapInsert rest k v

/-! ## Scheme parser (`GetSchemes`, xcode-runner.go lines 45-67)

The shell invocation is outside the model; the parser consumes the lines
delivered by `bufio.Scanner` over the captured output. -/

/-- The section marker the scheme parser looks for. -/
def schemesMarker : Str := "Schemes:".toList

/-- The line-scanning loop of `GetSchemes`: each line is trimmed, appended
when already in collecting mode and non-blank, and collecting mode turns on
when the trimmed line contains `"Schemes:"` (checked after the append). -/
def collectSchemes (inSchemes : Bool) : List Str → List Str
  | [] => []
  | l :: rest =>
    let line := trimSpace l
    let tail := collectSchemes (inSchemes || containsSub line schemesMarker) rest
    if inSchemes && line ≠ [] then line :: tail else tail

/-- Function `GetSchemes` after a successful toolchain invocation producing `lines`. -/
def GetSchemes (lines : List Str) : GoResult Str (List Str) :=
  let schemes := collectSchemes false lines
  if schemes = [] then .err "no schemes found".toList else .ok schemes

/-! ## Project locator (`detectXcodeProject`, xcode-runner.go lines 188-214) -/

/-- A directory entry as returned by `os.ReadDir`. -/
structure DirEntry where
  name : Str
  isDir : Bool
  deriving DecidableEq, Repr

/-- Go `filepath.Ext`: the suffix starting at the final dot of the final path
element; empty when there is no dot (or a separator intervenes). -/
def filepathExt (name : Str) : Str :=
  let tail := name.reverse.takeWhile (fun c => !(c = '.' || c = '/'))
  match name.reverse.drop tail.length with
  | '.' :: _ => '.' :: tail.reverse
  | _ => []

/-- One iteration of the `detectXcodeProject` loop over `(project, workspace)`. -/
def detectStep (pw : Str × Str) (file : DirEntry) : Str × Str :=
  if file.isDir then
    if filepathExt file.name = ".xcworkspace".toList then (pw.1, file.name)
    else if filepathExt file.name = ".xcodeproj".toList then (file.name, pw.2)
    else pw
  else pw

/-- Function `detectXcodeProject` over the listing of the current directory. -/
def detectXcodeProject (files : List DirEntry) : GoResult Str Str :=
  let st := files.foldl detectStep ([], [])
  if st.2 ≠ [] then .ok st.2
  else if st.1 ≠ [] then .ok st.1
  else .err "no .xcodeproj or .xcworkspace found in the current directory".toList

/-! ## Target classification in `main`

The current revision (part_000 line 199) computes
`isSim := strings.Contains(appPath, "simulator")` from the resolved
artifact path; the device identifier plays no role.  The superseded
revision (xcode-runner.go line 175) instead tested
`strings.Contains(deviceUDID, "-")`. -/

/-- Flag `isSim` as computed by the orchestrator from the resolved artifact path
(the device identifier argument is carried to show it is not consulted). -/
def isSimTarget (appPath _deviceUDID : Str) : Bool :=
  containsSub appPath "simulator".toList

/-- The legacy classification from the superseded revision: inspects the
device identifier's format instead of the artifact path. -/
def isSimTargetLegacy (_appPath deviceUDID : Str) : Bool :=
  containsSub deviceUDID "-".toList

/-! ## Build-settings extraction (`GetBuildSettings`, xcode-runner.go lines 216-242)

The command output is decoded by `json.Unmarshal` into `[]map[string]any`;
the model starts from that decoded value.  Go's unchecked type assertions
(`x.(map[string]any)`, `x.(string)`) panic when the dynamic type does not
match — including when a key is absent, since indexing a missing key yields
`nil` — so those paths surface as `GoResult.panic`. -/

/-- A decoded JSON value as far as `GetBuildSettings` inspects it. -/
inductive JVal where
  | s (v : Str)
  | obj (fields : List (Str × JVal))
  | other

/-- The `.(string)` type assertion on a map-index result. -/
def asString : Option JVal → Option Str
  | some (.s v) => some v
  | _ => none

/-- The `.(map[string]any)` type assertion on a map-index result. -/
def asObj : Option JVal → Option (List (Str × JVal))
  | some (.obj f) => some f
  | _ => none

/-- The body of the `len(buildSettings) > 0` branch: the chain of type
assertions over the first record, ending in the `appPath` concatenation. -/
def extractSettings (rec0 : List (Str × JVal)) : GoResult Str (Str × Str) :=
  match asObj (lookupKey "buildSettings".toList rec0) with
  | none => .panic
  | some settings =>
    match asString (lookupKey "BUILT_PRODUCTS_DIR".toList settings),
          asString (lookupKey "CONTENTS_FOLDER_PATH".toList settings),
          asString (lookupKey "PRODUCT_BUNDLE_IDENTIFIER".toList settings) with
    | some d, some c, some b => .ok (d ++ "/".toList ++ c, b)
    | _, _, _ => .panic

/-- Function `GetBuildSettings` after decode: `buildSettings` is the decoded record
list; the scheme and device arguments only shape the external command. -/
def GetBuildSettings (_selectedScheme _deviceID : Str) :
    List (List (Str × JVal)) → GoResult Str (Str × Str)
  | [] => .err "Unable to find the required build settings".toList
  | rec0 :: _ => extractSettings rec0

/-! ## Device registry, JSON variant (`GetDevices`, xcode-runner.go lines 69-96)

`json.Unmarshal` fills `DeviceList.Devices : map[string][]Device`; the code
then ranges over that Go map.  Go map iteration order is unspecified, so the
model takes the groups in an explicit traversal order (a list of
group-name/record-list pairs) and the theorems account for that order. -/

/-- A decoded device record. -/
structure Device where
  name : Str
  udid : Str
  avail : Bool
  deriving DecidableEq, Repr

/-- The inner loop: insert every available record of one group. -/
def insertGroup (m : List (Str × Str)) (ds : List Device) : List (Str × Str) :=
  ds.foldl (fun m d => if d.avail then mapInsert m d.name d.udid else m) m

/-- The nested range loops of the JSON `GetDevices`, for one traversal order
of the decoded group map. -/
def buildRegistry (groups : List (Str × List Device)) : List (Str × Str) :=
  groups.foldl (fun m g => insertGroup m g.2) []

/-- JSON `GetDevices` after a successful decode, for one traversal order. -/
def GetDevicesJson (groups : List (Str × List Device)) : GoResult Str (List (Str × Str)) :=
  let devices := buildRegistry groups
  if devices = [] then .err "no available simulators found".toList else .ok devices

/-! ## Device registry, structured-text variant (`GetDevices`, part_000 lines 70-129)

The parser scans the `xctrace list devices` output line by line, tracking
the current `== ... ==` section, and extracts name/identifier pairs from
lines of the `Devices` and `Simulators` sections.  The compiled regular
expression is
`^(.+) \(([A-F0-9]{8}-[A-F0-9]{4}-[A-F0-9]{4}-[A-F0-9]{4}-[A-F0-9]{12}|[0-9]{8}-[0-9]{16})\)$`
(RE2 defaults: anchors span the whole subject, `.` excludes newline). -/

/-- Membership in the character class `[A-F0-9]` (also the exact set passed
to `strings.ContainsAny`, `"0123456789ABCDEF"`). -/
def isHexUp (c : Char) : Bool :=
  ('0' ≤ c && c ≤ '9') || ('A' ≤ c && c ≤ 'F')

/-- Membership in `[0-9]`. -/
def isDig (c : Char) : Bool :=
  '0' ≤ c && c ≤ '9'

/-- Split at `'-'` separators (inverse of intercalating `"-"`). -/
def splitDash : Str → List Str
  | [] => [[]]
  | c :: rest =>
    let r := splitDash rest
    if c = '-' then [] :: r
    else
      match r with
      | [] => [[c]]
      | h :: t => (c :: h) :: t

/-- The first regex alternative: `[A-F0-9]{8}(-[A-F0-9]{4}){3}-[A-F0-9]{12}`. -/
def uuidAlt (s : Str) : Bool :=
  match splitDash s with
  | [a, b, c, d, e] =>
    decide (a.length = 8) && decide (b.length = 4) && decide (c.length = 4) &&
    decide (d.length = 4) && decide (e.length = 12) &&
    a.all isHexUp && b.all isHexUp && c.all isHexUp && d.all isHexUp && e.all isHexUp
  | _ => false

/-- The second regex alternative: `[0-9]{8}-[0-9]{16}`. -/
def ecidAlt (s : Str) : Bool :=
  match splitDash s with
  | [a, b] =>
    decide (a.length = 8) && decide (b.length = 16) && a.all isDig && b.all isDig
  | _ => false

/-- The identifier group of the regex: either alternative. -/
def idAlt (s : Str) : Bool :=
  uuidAlt s || ecidAlt s

/-- Go `re.MatchString(line)` for the UUID line pattern.  Because the
identifier group admits no parenthesis and the pattern is anchored at both
ends, any match places the literal `\(` at the line's last `'('`; the
matcher therefore decomposes at that position. -/
def reMatchLine (line : Str) : Bool :=
  match lastIndexOf line '(' with
  | none => false
  | some k =>
    let pre := line.take k
    let post := line.drop (k + 1)
    decide (pre.getLast? = some ' ') && decide (pre.dropLast ≠ []) &&
    pre.dropLast.all (fun c => c ≠ '\n') &&
    decide (post.getLast? = some ')') && idAlt post.dropLast

/-- The identifier the code extracts from a candidate line: everything after
the last `'('`, with one trailing `')'` removed. -/
def extractedId (line : Str) : Str :=
  match lastIndexOf line '(' with
  | none => []
  | some k => trimSuffix (line.drop (k + 1)) [')']

/-- The device name the code computes: the text up to one character before
the last `'('`, cut at an inner `'('` (version annotation) and trimmed. -/
def deviceNameOf (line : Str) : Str :=
  match lastIndexOf line '(' with
  | none => []
  | some k =>
    let dn0 := line.take (k - 1)
    match lastIndexOf dn0 '(' with
    | none => dn0
    | some j => trimSpace (dn0.take j)

/-- The acceptance test of part_000 line 118:
`re.MatchString(line) || (len(udid) > 0 && (Contains(udid, "-") || ContainsAny(udid, "0123456789ABCDEF")))`. -/
def codeAccept (line : Str) : Bool :=
  reMatchLine line ||
    (decide (extractedId line ≠ []) &&
      (containsSub (extractedId line) ['-'] || (extractedId line).any isHexUp))

/-- The non-header part of the loop body: the updated `devices` map, or
`none` for the out-of-range slice `line[:lastParenIndex-1]` taken when the
last `'('` is the line's first character. -/
def devicesBody (sec : Str) (m : List (Str × Str)) (line : Str) :
    Option (List (Str × Str)) :=
  if line = [] || sec = "== Devices Offline ==".toList then some m
  else if sec = "== Devices ==".toList || sec = "== Simulators ==".toList then
    match lastIndexOf line '(' with
    | none => some m
    | some k =>
      if k = 0 then none
      else if codeAccept line then
        some (mapInsert m (deviceNameOf line) (extractedId line))
      else some m
  else some m

/-- Processing of one scanned line: a `== ... ==` header replaces the
current section; any other line may update the map via `devicesBody`. -/
def devicesStep (sec : Str) (m : List (Str × Str)) (line : Str) :
    Option (Str × List (Str × Str)) :=
  if hasPrefix "== ".toList line then some (line, m)
  else (devicesBody sec m line).map (fun m' => (sec, m'))

/-- The scanner loop of the text `GetDevices`, threading the section and map. -/
def scanDevices : Str × List (Str × Str) → List Str → Option (Str × List (Str × Str))
  | st, [] => some st
  | st, line :: rest =>
    match devicesStep st.1 st.2 line with
    | none => none
    | some st' => scanDevices st' rest

/-- Text `GetDevices` over the scanner's lines of the command output. -/
def GetDevicesText (lines : List Str) : GoResult Str (List (Str × Str)) :=
  match scanDevices ([], []) lines with
  | none => .panic
  | some st =>
    if st.2 = [] then .err "no available simulators found".toList else .ok st.2

/-- The current section after scanning a prefix of the lines (header lines
set it, every other line leaves it unchanged). -/
def sectionAfter (lines : List Str) : Str :=
  lines.foldl (fun sec line => if hasPrefix "== ".toList line then line else sec) []

/-! ## Proofs: scheme parser (C1) -/

theorem collectSchemes_on (post : List Str) :
    collectSchemes true post = (post.map trimSpace).filter (fun l => decide (l ≠ [])) := by
  induction post with
  | nil => rfl
  | cons l rest ih =>
    by_cases h : trimSpace l = [] <;> simp [collectSchemes, ih, h]

theorem collectSchemes_off (pre rest : List Str)
    (h : ∀ l ∈ pre, containsSub (trimSpace l) schemesMarker = false) :
    collectSchemes false (pre ++ rest) = collectSchemes false rest := by
  induction pre with
  | nil => rfl
  | cons l pre ih =>
    have hl := h l (by simp)
    have ih' := ih (fun x hx => h x (by simp [hx]))
    simp [collectSchemes, hl, ih']

theorem collectSchemes_off_nil (lines : List Str)
    (h : ∀ l ∈ lines, containsSub (trimSpace l) schemesMarker = false) :
    collectSchemes false lines = [] := by
  have := collectSchemes_off lines [] h
  simpa using this

/-- C1: on any output whose first line containing the marker `"Schemes:"` is
followed by some lines, the scheme parser returns exactly the non-blank ones
of those following lines, whitespace-trimmed and in order; if they are all
blank, or if no line contains the marker, it returns the no-schemes error. -/
theorem getSchemes_spec :
    (∀ (pre : List Str) (hdr : Str) (post : List Str),
      (∀ l ∈ pre, containsSub (trimSpace l) schemesMarker = false) →
      containsSub (trimSpace hdr) schemesMarker = true →
      GetSchemes (pre ++ hdr :: post) =
        (if (post.map trimSpace).filter (fun l => decide (l ≠ [])) = []
         then .err "no schemes found".toList
         else .ok ((post.map trimSpace).filter (fun l => decide (l ≠ [])))))
    ∧ (∀ lines : List Str,
      (∀ l ∈ lines, containsSub (trimSpace l) schemesMarker = false) →
      GetSchemes lines = .err "no schemes found".toList) := by
  constructor
  · intro pre hdr post hpre hhdr
    have h1 : collectSchemes false (pre ++ hdr :: post) = collectSchemes false (hdr :: post) :=
      collectSchemes_off pre (hdr :: post) hpre
    have h2 : collectSchemes false (hdr :: post) = collectSchemes true post := by
      simp [collectSchemes, hhdr]
    rw [GetSchemes, h1, h2, collectSchemes_on]
  · intro lines h
    rw [GetSchemes, collectSchemes_off_nil lines h]
    rfl

/-- C1 witness: the spec's end-to-end scenario, instantiated through
`getSchemes_spec` at concrete output text. -/
theorem getSchemes_spec_witness :
    (∀ l ∈ ["Information about project:".toList],
        containsSub (trimSpace l) schemesMarker = false)
    ∧ containsSub (trimSpace "    Schemes:".toList) schemesMarker = true
    ∧ GetSchemes (["Information about project:", "    Schemes:",
        "  Debug", "", "  Release"].map String.toList)
      = .ok ["Debug".toList, "Release".toList] :=
  ⟨by decide, by decide, by
    have h := getSchemes_spec.1 ["Information about project:".toList] "    Schemes:".toList
      ["  Debug".toList, "".toList, "  Release".toList] (by decide) (by decide)
    rw [show (["Information about project:", "    Schemes:", "  Debug", "", "  Release"].map
        String.toList)
      = ["Information about project:".toList] ++ "    Schemes:".toList ::
        ["  Debug".toList, "".toList, "  Release".toList] from rfl, h]
    decide⟩

/-! ## Proofs: project locator (C2) -/

/-- A directory entry the locator records as a workspace. -/
def isWsEntry (e : DirEntry) : Bool :=
  e.isDir && decide (filepathExt e.name = ".xcworkspace".toList)

/-- A directory entry the locator records as a project. -/
def isPjEntry (e : DirEntry) : Bool :=
  e.isDir && decide (filepathExt e.name = ".xcodeproj".toList)

theorem detectStep_of_ws (acc : Str × Str) (f : DirEntry)
    (h : isWsEntry f = true) : detectStep acc f = (acc.1, f.name) := by
  unfold isWsEntry at h
  obtain ⟨hd, he⟩ := Bool.and_eq_true_iff.mp h
  unfold detectStep
  rw [if_pos hd, if_pos (of_decide_eq_true he)]

theorem detectStep_of_pj (acc : Str × Str) (f : DirEntry)
    (h : isPjEntry f = true) : detectStep acc f = (f.name, acc.2) := by
  unfold isPjEntry at h
  obtain ⟨hd, he⟩ := Bool.and_eq_true_iff.mp h
  have he' := of_decide_eq_true he
  unfold detectStep
  rw [if_pos hd, if_neg (by rw [he']; decide), if_pos he']

theorem detectStep_snd_of_not_ws (acc : Str × Str) (f : DirEntry)
    (h : isWsEntry f = false) : (detectStep acc f).2 = acc.2 := by
  unfold detectStep
  by_cases hd : f.isDir
  · unfold isWsEntry at h
    rw [hd] at h
    simp only [Bool.true_and, decide_eq_false_iff_not] at h
    rw [if_pos hd, if_neg h]
    split <;> rfl
  · rw [if_neg hd]

theorem detectStep_fst_of_not_pj (acc : Str × Str) (f : DirEntry)
    (h : isPjEntry f = false) : (detectStep acc f).1 = acc.1 := by
  unfold detectStep
  by_cases hd : f.isDir
  · unfold isPjEntry at h
    rw [hd] at h
    simp only [Bool.true_and, decide_eq_false_iff_not] at h
    rw [if_pos hd]
    by_cases hw : filepathExt f.name = ".xcworkspace".toList
    · rw [if_pos hw]
    · rw [if_neg hw, if_neg h]
  · rw [if_neg hd]

theorem pj_not_ws (f : DirEntry) (h : isPjEntry f = true) : isWsEntry f = false := by
  unfold isPjEntry at h
  obtain ⟨hd, he⟩ := Bool.and_eq_true_iff.mp h
  have he' := of_decide_eq_true he
  unfold isWsEntry
  rw [hd, he']
  decide

theorem ws_name_ne_nil (f : DirEntry) (h : isWsEntry f = true) : f.name ≠ [] := by
  intro hn
  unfold isWsEntry at h
  rw [hn] at h
  simp [filepathExt] at h

theorem pj_name_ne_nil (f : DirEntry) (h : isPjEntry f = true) : f.name ≠ [] := by
  intro hn
  unfold isPjEntry at h
  rw [hn] at h
  simp [filepathExt] at h

theorem foldl_detect_snd_none (files : List DirEntry) :
    ∀ acc : Str × Str, (∀ e ∈ files, isWsEntry e = false) →
    (files.foldl detectStep acc).2 = acc.2 := by
  induction files with
  | nil => intro acc _; rfl
  | cons f rest ih =>
    intro acc h
    rw [List.foldl_cons, ih (detectStep acc f) (fun e he => h e (by simp [he]))]
    exact detectStep_snd_of_not_ws acc f (h f (by simp))

theorem foldl_detect_fst_none (files : List DirEntry) :
    ∀ acc : Str × Str, (∀ e ∈ files, isPjEntry e = false) →
    (files.foldl detectStep acc).1 = acc.1 := by
  induction files with
  | nil => intro acc _; rfl
  | cons f rest ih =>
    intro acc h
    rw [List.foldl_cons, ih (detectStep acc f) (fun e he => h e (by simp [he]))]
    exact detectStep_fst_of_not_pj acc f (h f (by simp))

theorem foldl_detect_snd_some (files : List DirEntry) :
    ∀ acc : Str × Str, (∃ e ∈ files, isWsEntry e = true) →
    ∃ e ∈ files, isWsEntry e = true ∧ (files.foldl detectStep acc).2 = e.name := by
  induction files with
  | nil => intro acc h; exact absurd h (by simp)
  | cons f rest ih =>
    intro acc h
    by_cases hre : ∃ e ∈ rest, isWsEntry e = true
    · obtain ⟨e, he, hws, heq⟩ := ih (detectStep acc f) hre
      exact ⟨e, by simp [he], hws, by rw [List.foldl_cons]; exact heq⟩
    · push_neg at hre
      have hf : isWsEntry f = true := by
        obtain ⟨e, he, hws⟩ := h
        rcases List.mem_cons.mp he with rfl | hmem
        · exact hws
        · exact absurd hws (by simp [hre e hmem])
      refine ⟨f, by simp, hf, ?_⟩
      rw [List.foldl_cons,
        foldl_detect_snd_none rest (detectStep acc f)
          (fun e he => by simp [hre e he]),
        detectStep_of_ws acc f hf]

theorem foldl_detect_fst_some (files : List DirEntry) :
    ∀ acc : Str × Str, (∃ e ∈ files, isPjEntry e = true) →
    ∃ e ∈ files, isPjEntry e = true ∧ (files.foldl detectStep acc).1 = e.name := by
  induction files with
  | nil => intro acc h; exact absurd h (by simp)
  | cons f rest ih =>
    intro acc h
    by_cases hre : ∃ e ∈ rest, isPjEntry e = true
    · obtain ⟨e, he, hpj, heq⟩ := ih (detectStep acc f) hre
      exact ⟨e, by simp [he], hpj, by rw [List.foldl_cons]; exact heq⟩
    · push_neg at hre
      have hf : isPjEntry f = true := by
        obtain ⟨e, he, hpj⟩ := h
        rcases List.mem_cons.mp he with rfl | hmem
        · exact hpj
        · exact absurd hpj (by simp [hre e hmem])
      refine ⟨f, by simp, hf, ?_⟩
      rw [List.foldl_cons,
        foldl_detect_fst_none rest (detectStep acc f)
          (fun e he => by simp [hre e he]),
        detectStep_of_pj acc f hf]

/-- C2: the locator returns some workspace entry whenever a directory with
extension `.xcworkspace` exists (even alongside projects), returns some
project entry when only `.xcodeproj` directories exist, and errs when
neither exists; in particular it picks `App.xcodeproj` from a lone project
and the workspace when both are present. -/
theorem detectXcodeProject_spec :
    (∀ files : List DirEntry, (∃ e ∈ files, isWsEntry e = true) →
      ∃ w, detectXcodeProject files = .ok w
        ∧ ∃ e ∈ files, isWsEntry e = true ∧ e.name = w)
    ∧ (∀ files : List DirEntry, (∀ e ∈ files, isWsEntry e = false) →
        (∃ e ∈ files, isPjEntry e = true) →
      ∃ p, detectXcodeProject files = .ok p
        ∧ ∃ e ∈ files, isPjEntry e = true ∧ e.name = p)
    ∧ (∀ files : List DirEntry, (∀ e ∈ files, isWsEntry e = false) →
        (∀ e ∈ files, isPjEntry e = false) →
      detectXcodeProject files
        = .err "no .xcodeproj or .xcworkspace found in the current directory".toList)
    ∧ detectXcodeProject [⟨"App.xcodeproj".toList, true⟩] = .ok "App.xcodeproj".toList
    ∧ detectXcodeProject [⟨"App.xcodeproj".toList, true⟩, ⟨"App.xcworkspace".toList, true⟩]
        = .ok "App.xcworkspace".toList := by
  refine ⟨?_, ?_, ?_, by decide, by decide⟩
  · intro files h
    obtain ⟨e, he, hws, heq⟩ := foldl_detect_snd_some files ([], []) h
    refine ⟨e.name, ?_, e, he, hws, rfl⟩
    simp only [detectXcodeProject]
    rw [heq, if_pos (ws_name_ne_nil e hws)]
  · intro files hws h
    obtain ⟨e, he, hpj, heq⟩ := foldl_detect_fst_some files ([], []) h
    refine ⟨e.name, ?_, e, he, hpj, rfl⟩
    simp only [detectXcodeProject]
    rw [foldl_detect_snd_none files ([], []) hws, heq]
    rw [if_neg (by simp), if_pos (pj_name_ne_nil e hpj)]
  · intro files hws hpj
    simp only [detectXcodeProject]
    rw [foldl_detect_snd_none files ([], []) hws,
      foldl_detect_fst_none files ([], []) hpj]
    rfl

/-- C2 witness: the workspace branch of `detectXcodeProject_spec`
instantiated at a concrete listing holding both descriptor kinds. -/
theorem detectXcodeProject_spec_witness :
    (∃ e ∈ [DirEntry.mk "App.xcodeproj".toList true,
            DirEntry.mk "App.xcworkspace".toList true], isWsEntry e = true)
    ∧ ∃ w, detectXcodeProject [DirEntry.mk "App.xcodeproj".toList true,
            DirEntry.mk "App.xcworkspace".toList true] = .ok w
        ∧ ∃ e ∈ [DirEntry.mk "App.xcodeproj".toList true,
            DirEntry.mk "App.xcworkspace".toList true], isWsEntry e = true ∧ e.name = w :=
  ⟨by decide, detectXcodeProject_spec.1 _ (by decide)⟩

/-! ## Proofs: simulator classification (C3) -/

/-- C3: the orchestrator's target classification `isSim` is exactly the
presence of the `"simulator"` marker in the resolved artifact path and does
not depend on the device identifier; the superseded identifier-format test
disagrees with it at concrete inputs, and the path-based result prevails. -/
theorem simulator_classified_by_path :
    (∀ appPath u₁ u₂ : Str, isSimTarget appPath u₁ = isSimTarget appPath u₂)
    ∧ (∀ appPath udid : Str,
        isSimTarget appPath udid = containsSub appPath "simulator".toList)
    ∧ isSimTarget "/D/Products/Debug-iphonesimulator/App.app".toList
        "00008120000A2D3E".toList = true
    ∧ isSimTargetLegacy "/D/Products/Debug-iphonesimulator/App.app".toList
        "00008120000A2D3E".toList = false
    ∧ isSimTarget "/D/Products/Debug-iphoneos/App.app".toList
        "ABCD1234-AB12-CD34-EF56-ABCDEF123456".toList = false
    ∧ isSimTargetLegacy "/D/Products/Debug-iphoneos/App.app".toList
        "ABCD1234-AB12-CD34-EF56-ABCDEF123456".toList = true :=
  ⟨fun _ _ _ => rfl, fun _ _ => rfl, by decide, by decide, by decide, by decide⟩

/-! ## Proofs: build-settings extraction (C4, C5) -/

/-- C4: whenever the first decoded record's settings object binds the three
required keys to strings, the extraction returns the output directory, a
literal `"/"`, and the contents-folder path concatenated as `appPath`, and
the bundle-identifier value unchanged — for arbitrary scheme and device
identifier inputs. -/
theorem getBuildSettings_extracts (scheme deviceID : Str)
    (rec0 : List (Str × JVal)) (rest : List (List (Str × JVal)))
    (settings : List (Str × JVal)) (d c b : Str)
    (hset : lookupKey "buildSettings".toList rec0 = some (.obj settings))
    (hd : lookupKey "BUILT_PRODUCTS_DIR".toList settings = some (.s d))
    (hc : lookupKey "CONTENTS_FOLDER_PATH".toList settings = some (.s c))
    (hb : lookupKey "PRODUCT_BUNDLE_IDENTIFIER".toList settings = some (.s b)) :
    GetBuildSettings scheme deviceID (rec0 :: rest) = .ok (d ++ "/".toList ++ c, b) := by
  have h1 : asObj (lookupKey "buildSettings".toList rec0) = some settings := by
    rw [hset]; rfl
  have h2 : asString (lookupKey "BUILT_PRODUCTS_DIR".toList settings) = some d := by
    rw [hd]; rfl
  have h3 : asString (lookupKey "CONTENTS_FOLDER_PATH".toList settings) = some c := by
    rw [hc]; rfl
  have h4 : asString (lookupKey "PRODUCT_BUNDLE_IDENTIFIER".toList settings) = some b := by
    rw [hb]; rfl
  show extractSettings rec0 = .ok (d ++ "/".toList ++ c, b)
  unfold extractSettings
  rw [h1]
  dsimp only
  rw [h2, h3, h4]

/-- C4 witness: `getBuildSettings_extracts` at a minimal concrete record. -/
theorem getBuildSettings_extracts_witness :
    lookupKey "buildSettings".toList
        [("buildSettings".toList,
          JVal.obj [("BUILT_PRODUCTS_DIR".toList, .s "/tmp/out".toList),
                    ("CONTENTS_FOLDER_PATH".toList, .s "App.app".toList),
                    ("PRODUCT_BUNDLE_IDENTIFIER".toList, .s "com.ex.app".toList)])]
      = some (.obj [("BUILT_PRODUCTS_DIR".toList, .s "/tmp/out".toList),
                    ("CONTENTS_FOLDER_PATH".toList, .s "App.app".toList),
                    ("PRODUCT_BUNDLE_IDENTIFIER".toList, .s "com.ex.app".toList)])
    ∧ GetBuildSettings "MyScheme".toList "ABCD-1234".toList
        [[("buildSettings".toList,
          JVal.obj [("BUILT_PRODUCTS_DIR".toList, .s "/tmp/out".toList),
                    ("CONTENTS_FOLDER_PATH".toList, .s "App.app".toList),
                    ("PRODUCT_BUNDLE_IDENTIFIER".toList, .s "com.ex.app".toList)])]]
      = .ok ("/tmp/out/App.app".toList, "com.ex.app".toList) :=
  ⟨rfl, by
    have h := getBuildSettings_extracts "MyScheme".toList "ABCD-1234".toList
      [("buildSettings".toList,
        JVal.obj [("BUILT_PRODUCTS_DIR".toList, .s "/tmp/out".toList),
                  ("CONTENTS_FOLDER_PATH".toList, .s "App.app".toList),
                  ("PRODUCT_BUNDLE_IDENTIFIER".toList, .s "com.ex.app".toList)])] []
      [("BUILT_PRODUCTS_DIR".toList, .s "/tmp/out".toList),
       ("CONTENTS_FOLDER_PATH".toList, .s "App.app".toList),
       ("PRODUCT_BUNDLE_IDENTIFIER".toList, .s "com.ex.app".toList)]
      "/tmp/out".toList "App.app".toList "com.ex.app".toList rfl rfl rfl rfl
    rw [h]
    decide⟩

/-- C5 counterexample: on a decoded payload whose first record's settings
object binds none of the required keys, the extraction hits a failed type
assertion (runtime panic) instead of returning an error result, refuting
the claim that absence of a required field yields an error return. -/
theorem getBuildSettings_claim_counterexample :
    GetBuildSettings [] [] [[("buildSettings".toList, JVal.obj [])]] = .panic
    ∧ (GetBuildSettings [] [] [[("buildSettings".toList, JVal.obj [])]]).isErr = false :=
  ⟨rfl, rfl⟩

/-- C5 amended: the extraction returns an error result when the decoded
record sequence is empty; when the first record's settings object is absent
or not an object, or any of the three required fields is absent or bound to
a non-string value, it terminates abnormally (failed type assertion),
not with an error result. -/
theorem getBuildSettings_failure_modes :
    (∀ scheme deviceID : Str, GetBuildSettings scheme deviceID []
        = .err "Unable to find the required build settings".toList)
    ∧ (∀ (scheme deviceID : Str) (rec0 : List (Str × JVal))
          (rest : List (List (Str × JVal))),
        asObj (lookupKey "buildSettings".toList rec0) = none →
        GetBuildSettings scheme deviceID (rec0 :: rest) = .panic)
    ∧ (∀ (scheme deviceID : Str) (rec0 : List (Str × JVal))
          (rest : List (List (Str × JVal))) (settings : List (Str × JVal)),
        asObj (lookupKey "buildSettings".toList rec0) = some settings →
        (asString (lookupKey "BUILT_PRODUCTS_DIR".toList settings) = none ∨
         asString (lookupKey "CONTENTS_FOLDER_PATH".toList settings) = none ∨
         asString (lookupKey "PRODUCT_BUNDLE_IDENTIFIER".toList settings) = none) →
        GetBuildSettings scheme deviceID (rec0 :: rest) = .panic) := by
  refine ⟨fun _ _ => rfl, ?_, ?_⟩
  · intro scheme deviceID rec0 rest h
    show extractSettings rec0 = .panic
    unfold extractSettings
    rw [h]
  · intro scheme deviceID rec0 rest settings h hmiss
    show extractSettings rec0 = .panic
    unfold extractSettings
    rw [h]
    dsimp only
    rcases hmiss with hm | hm | hm <;>
      cases hd : asString (lookupKey "BUILT_PRODUCTS_DIR".toList settings) <;>
      cases hc : asString (lookupKey "CONTENTS_FOLDER_PATH".toList settings) <;>
      cases hb : asString (lookupKey "PRODUCT_BUNDLE_IDENTIFIER".toList settings) <;>
      simp_all

/-- C5 amended witness: `getBuildSettings_failure_modes` at concrete
payloads — a record with a non-object settings value, and a settings object
missing the contents-folder key. -/
theorem getBuildSettings_failure_modes_witness :
    GetBuildSettings "S".toList "D".toList [[("buildSettings".toList, JVal.other)]] = .panic
    ∧ GetBuildSettings "S".toList "D".toList
        [[("buildSettings".toList,
           JVal.obj [("BUILT_PRODUCTS_DIR".toList, .s "/tmp/out".toList)])]] = .panic :=
  ⟨getBuildSettings_failure_modes.2.1 "S".toList "D".toList
      [("buildSettings".toList, JVal.other)] [] rfl,
   getBuildSettings_failure_modes.2.2 "S".toList "D".toList
      [("buildSettings".toList,
        JVal.obj [("BUILT_PRODUCTS_DIR".toList, .s "/tmp/out".toList)])] []
      [("BUILT_PRODUCTS_DIR".toList, .s "/tmp/out".toList)] rfl (Or.inr (Or.inl rfl))⟩

/-! ## Proofs: JSON device registry (C6, C9) -/

theorem lookup_mapInsert {β : Type} (m : List (Str × β)) (k n : Str) (v : β) :
    lookupKey n (mapInsert m k v) = if k = n then some v else lookupKey n m := by
  induction m with
  | nil => rfl
  | cons p rest ih =>
    obtain ⟨k', v'⟩ := p
    by_cases hk : k' = k
    · subst hk
      by_cases hn : k' = n <;> simp [mapInsert, lookupKey, hn]
    · by_cases hn : k' = n
      · subst hn
        have : ¬k = k' := fun h => hk h.symm
        simp [mapInsert, lookupKey, hk, this, ih]
      · simp [mapInsert, lookupKey, hk, hn, ih]

theorem insertGroup_lookup (ds : List Device) :
    ∀ (m : List (Str × Str)) (n u : Str),
    lookupKey n (insertGroup m ds) = some u →
    (∃ d ∈ ds, d.avail = true ∧ d.name = n ∧ d.udid = u) ∨ lookupKey n m = some u := by
  induction ds with
  | nil => intro m n u h; exact Or.inr h
  | cons d rest ih =>
    intro m n u h
    rw [show insertGroup m (d :: rest)
        = insertGroup (if d.avail then mapInsert m d.name d.udid else m) rest from rfl] at h
    rcases ih _ n u h with hrest | hm
    · obtain ⟨d', hd', hp⟩ := hrest
      exact Or.inl ⟨d', by simp [hd'], hp⟩
    · by_cases hav : d.avail
      · rw [if_pos hav, lookup_mapInsert] at hm
        by_cases hn : d.name = n
        · rw [if_pos hn] at hm
          exact Or.inl ⟨d, by simp, hav, hn, by injection hm⟩
        · rw [if_neg hn] at hm
          exact Or.inr hm
      · rw [if_neg hav] at hm
        exact Or.inr hm

theorem foldl_registry_lookup (groups : List (Str × List Device)) :
    ∀ (acc : List (Str × Str)) (n u : Str),
    lookupKey n (groups.foldl (fun m g => insertGroup m g.2) acc) = some u →
    (∃ g ∈ groups, ∃ d ∈ g.2, d.avail = true ∧ d.name = n ∧ d.udid = u)
      ∨ lookupKey n acc = some u := by
  induction groups with
  | nil => intro acc n u h; exact Or.inr h
  | cons g rest ih =>
    intro acc n u h
    rw [List.foldl_cons] at h
    rcases ih _ n u h with hrest | hacc
    · obtain ⟨g', hg', hp⟩ := hrest
      exact Or.inl ⟨g', by simp [hg'], hp⟩
    · rcases insertGroup_lookup g.2 acc n u hacc with hds | hm
      · exact Or.inl ⟨g, by simp, hds⟩
      · exact Or.inr hm

/-- C6: every binding of the registry built from a decoded JSON device
listing comes from a record whose availability flag is true (with that very
name and identifier); unavailable records never contribute, whatever the
traversal order of the group map. -/
theorem registry_only_available (groups : List (Str × List Device)) (n u : Str)
    (h : lookupKey n (buildRegistry groups) = some u) :
    ∃ g ∈ groups, ∃ d ∈ g.2, d.avail = true ∧ d.name = n ∧ d.udid = u := by
  rcases foldl_registry_lookup groups [] n u h with hg | hnone
  · exact hg
  · exact absurd hnone (by simp [lookupKey])

/-- C6 witness: `registry_only_available` at a listing mixing an available
and an unavailable record. -/
theorem registry_only_available_witness :
    lookupKey "iPhone 15".toList
      (buildRegistry
        [("iOS 18".toList,
          [⟨"iPhone 15".toList, "ABCD-1234".toList, true⟩,
           ⟨"iPhone 14".toList, "9999-0000".toList, false⟩])])
      = some "ABCD-1234".toList
    ∧ ∃ g ∈ [("iOS 18".toList,
          [Device.mk "iPhone 15".toList "ABCD-1234".toList true,
           Device.mk "iPhone 14".toList "9999-0000".toList false])],
        ∃ d ∈ g.2, d.avail = true ∧ d.name = "iPhone 15".toList
          ∧ d.udid = "ABCD-1234".toList :=
  ⟨by decide, registry_only_available _ _ _ (by decide)⟩

/-- The identifier of the last record, in traversal order, that is available
and carries the given name — starting from a default for earlier bindings. -/
def lastAvailUdid (n : Str) (acc : Option Str) (ds : List Device) : Option Str :=
  ds.foldl (fun a d => if d.avail && decide (d.name = n) then some d.udid else a) acc

theorem insertGroup_lookup_eq (ds : List Device) :
    ∀ (m : List (Str × Str)) (n : Str),
    lookupKey n (insertGroup m ds) = lastAvailUdid n (lookupKey n m) ds := by
  induction ds with
  | nil => intro m n; rfl
  | cons d rest ih =>
    intro m n
    rw [show insertGroup m (d :: rest)
        = insertGroup (if d.avail then mapInsert m d.name d.udid else m) rest from rfl,
      ih, show lastAvailUdid n (lookupKey n m) (d :: rest)
        = lastAvailUdid n
            (if d.avail && decide (d.name = n) then some d.udid else lookupKey n m)
            rest from rfl]
    congr 1
    by_cases hav : d.avail = true
    · rw [if_pos hav, lookup_mapInsert, hav, Bool.true_and]
      by_cases hn : d.name = n <;> simp [hn]
    · have hf : d.avail = false := by revert hav; cases d.avail <;> simp
      simp [hf]

theorem foldl_registry_lookup_eq (groups : List (Str × List Device)) :
    ∀ (acc : List (Str × Str)) (n : Str),
    lookupKey n (groups.foldl (fun m g => insertGroup m g.2) acc)
      = lastAvailUdid n (lookupKey n acc) ((groups.map Prod.snd).flatten) := by
  induction groups with
  | nil => intro acc n; rfl
  | cons g rest ih =>
    intro acc n
    rw [List.foldl_cons, ih, List.map_cons, List.flatten_cons,
      show ∀ l₁ l₂ a, lastAvailUdid n a (l₁ ++ l₂) = lastAvailUdid n (lastAvailUdid n a l₁) l₂
        from fun l₁ l₂ a => List.foldl_append .. , insertGroup_lookup_eq]

/-- C9 amended: relative to one traversal order of the decoded group map,
the registry binds each name to the identifier of the last-seen available
record carrying that name (map-overwrite semantics), and to nothing when no
such record exists. -/
theorem registry_last_seen (groups : List (Str × List Device)) (n : Str) :
    lookupKey n (buildRegistry groups)
      = lastAvailUdid n none ((groups.map Prod.snd).flatten) := by
  rw [show buildRegistry groups = groups.foldl (fun m g => insertGroup m g.2) [] from rfl,
    foldl_registry_lookup_eq]
  rfl

/-- C9 counterexample: the group traversal order is the iteration order of a
Go map, which is unspecified and varies across runs; two orders of the same
two groups (a permutation, i.e. the same decoded map) yield different
registries for a name duplicated across groups, so the result is not
determined by the input listing alone. -/
theorem registry_order_counterexample :
    lookupKey "iPhone 15".toList
      (buildRegistry
        [("iOS 17".toList, [⟨"iPhone 15".toList, "1111-AAAA".toList, true⟩]),
         ("iOS 18".toList, [⟨"iPhone 15".toList, "2222-BBBB".toList, true⟩])])
      = some "2222-BBBB".toList
    ∧ lookupKey "iPhone 15".toList
      (buildRegistry
        [("iOS 18".toList, [⟨"iPhone 15".toList, "2222-BBBB".toList, true⟩]),
         ("iOS 17".toList, [⟨"iPhone 15".toList, "1111-AAAA".toList, true⟩])])
      = some "1111-AAAA".toList
    ∧ [("iOS 17".toList, [Device.mk "iPhone 15".toList "1111-AAAA".toList true]),
       ("iOS 18".toList, [Device.mk "iPhone 15".toList "2222-BBBB".toList true])].Perm
      [("iOS 18".toList, [Device.mk "iPhone 15".toList "2222-BBBB".toList true]),
       ("iOS 17".toList, [Device.mk "iPhone 15".toList "1111-AAAA".toList true])] := by
  refine ⟨by decide, by decide, ?_⟩
  exact List.Perm.swap _ _ _

/-! ## Proofs: structured-text device parser (C7, C8, C10) -/

theorem scanDevices_append (xs ys : List Str) :
    ∀ st, scanDevices st (xs ++ ys)
      = (scanDevices st xs).bind (fun st' => scanDevices st' ys) := by
  induction xs with
  | nil => intro st; rfl
  | cons l rest ih =>
    intro st
    rw [List.cons_append]
    cases hd : devicesStep st.1 st.2 l with
    | none => simp [scanDevices, hd]
    | some st' => simp [scanDevices, hd, ih st']

theorem devicesStep_section (sec : Str) (m : List (Str × Str)) (line : Str)
    (st' : Str × List (Str × Str)) (h : devicesStep sec m line = some st') :
    st'.1 = if hasPrefix "== ".toList line then line else sec := by
  unfold devicesStep at h
  by_cases hp : hasPrefix "== ".toList line = true
  · rw [if_pos hp] at h
    cases h
    rw [if_pos hp]
  · rw [if_neg hp] at h
    rw [if_neg hp]
    cases hb : devicesBody sec m line with
    | none => rw [hb] at h; cases h
    | some m' => rw [hb] at h; cases h; rfl

theorem scanDevices_section (lines : List Str) :
    ∀ st st', scanDevices st lines = some st' →
    st'.1 = lines.foldl
      (fun sec line => if hasPrefix "== ".toList line then line else sec) st.1 := by
  induction lines with
  | nil => intro st st' h; cases h; rfl
  | cons l rest ih =>
    intro st st' h
    rw [List.foldl_cons]
    have hstep : ∀ st1, devicesStep st.1 st.2 l = some st1 →
        scanDevices st1 rest = some st' →
        st'.1 = rest.foldl
          (fun sec line => if hasPrefix "== ".toList line then line else sec)
          (if hasPrefix "== ".toList l then l else st.1) := by
      intro st1 h1 h2
      rw [← devicesStep_section st.1 st.2 l st1 h1]
      exact ih st1 st' h2
    revert h
    show (match devicesStep st.1 st.2 l with
          | none => none
          | some st1 => scanDevices st1 rest) = some st' → _
    cases hd : devicesStep st.1 st.2 l with
    | none => intro h; cases h
    | some st1 => exact hstep st1 hd

theorem devicesStep_offline (m : List (Str × Str)) (l : Str)
    (hnh : hasPrefix "== ".toList l = false) :
    devicesStep "== Devices Offline ==".toList m l
      = some ("== Devices Offline ==".toList, m) := by
  have hnh' : ¬ hasPrefix "== ".toList l = true := by rw [hnh]; simp
  unfold devicesStep devicesBody
  rw [if_neg hnh', if_pos (by simp)]
  rfl

/-- C7: deleting a non-header line that lies under the `"== Devices Offline
=="` section header leaves the text parser's result unchanged — such lines
never contribute a registry entry, whatever identifier they may carry. -/
theorem offline_lines_contribute_nothing (pre post : List Str) (l : Str)
    (hsec : sectionAfter pre = "== Devices Offline ==".toList)
    (hnh : hasPrefix "== ".toList l = false) :
    GetDevicesText (pre ++ l :: post) = GetDevicesText (pre ++ post) := by
  unfold GetDevicesText
  rw [show pre ++ l :: post = pre ++ [l] ++ post by simp,
    show pre ++ [l] ++ post = (pre ++ [l]) ++ post from rfl,
    scanDevices_append (pre ++ [l]) post, scanDevices_append pre [l],
    scanDevices_append pre post]
  cases hscan : scanDevices ([], []) pre with
  | none => rfl
  | some st =>
    have hsec' : st.1 = "== Devices Offline ==".toList := by
      rw [scanDevices_section pre ([], []) st hscan]
      exact hsec
    have hl : scanDevices st [l] = some st := by
      show (match devicesStep st.1 st.2 l with
            | none => none
            | some st1 => scanDevices st1 []) = some st
      rw [hsec', devicesStep_offline st.2 l hnh, ← hsec']
      rfl
    simp only [Option.some_bind]
    rw [hl]
    simp only [Option.some_bind]

/-- C7 witness: a concrete listing where a well-formed device line sits in
the offline section; dropping it leaves the parse outcome identical. -/
theorem offline_lines_contribute_nothing_witness :
    sectionAfter ["== Devices Offline ==".toList] = "== Devices Offline ==".toList
    ∧ hasPrefix "== ".toList
        "iPhone 15 (18.2) (ABCD1234-AB12-CD34-EF56-ABCDEF123456)".toList = false
    ∧ GetDevicesText ["== Devices Offline ==".toList,
        "iPhone 15 (18.2) (ABCD1234-AB12-CD34-EF56-ABCDEF123456)".toList]
      = GetDevicesText ["== Devices Offline ==".toList] :=
  ⟨by decide, by decide,
    offline_lines_contribute_nothing ["== Devices Offline ==".toList] [] _
      (by decide) (by decide)⟩

/-! ### The acceptance condition collapses to the spec's reading

The regex is matched against the whole line, while the spec phrases the
first disjunct in terms of the extracted identifier.  The two readings
agree: a full-line match forces the extracted identifier to match the
identifier group, and every identifier-group match contains a hyphen and is
non-empty, so it also satisfies the fallback. -/

/-- The acceptance condition as the specification words it: the extracted
identifier matches the UUID-like pattern, or (fallback) it is non-empty and
contains a hyphen or a hexadecimal character. -/
def specAccept (line : Str) : Bool :=
  idAlt (extractedId line) ||
    (decide (extractedId line ≠ []) &&
      (containsSub (extractedId line) ['-'] || (extractedId line).any isHexUp))

theorem take_pred_eq_dropLast (s : Str) : s.take (s.length - 1) = s.dropLast := by
  rw [List.dropLast_eq_take]

theorem trimSuffix_getLast (s : Str) (c : Char) (h : s.getLast? = some c) :
    trimSuffix s [c] = s.dropLast := by
  unfold trimSuffix
  have hrev : s.reverse.head? = some c := by rw [List.head?_reverse, h]
  obtain ⟨t, ht⟩ : ∃ t, s.reverse = c :: t := by
    cases hr : s.reverse with
    | nil => rw [hr] at hrev; cases hrev
    | cons a tl =>
      rw [hr] at hrev
      injection hrev with h1
      exact ⟨tl, by rw [h1]⟩
  rw [show ([c] : Str).reverse = [c] from rfl, ht,
    if_pos (show hasPrefix [c] (c :: t) = true by simp [hasPrefix])]
  exact take_pred_eq_dropLast s

theorem reMatch_idAlt (line : Str) (h : reMatchLine line = true) :
    idAlt (extractedId line) = true := by
  unfold reMatchLine at h
  unfold extractedId
  cases hk : lastIndexOf line '(' with
  | none => rw [hk] at h; cases h
  | some k =>
    rw [hk] at h
    dsimp only at h ⊢
    simp only [Bool.and_eq_true, decide_eq_true_eq] at h
    rw [trimSuffix_getLast _ _ h.1.2]
    exact h.2

theorem splitDash_no_dash (s : Str) (h : '-' ∉ s) : splitDash s = [s] := by
  induction s with
  | nil => rfl
  | cons c rest ih =>
    have hc : ¬ c = '-' := fun hc => h (by rw [hc]; exact List.mem_cons_self _ _)
    have hr := ih (fun hm => h (List.mem_cons_of_mem _ hm))
    unfold splitDash
    rw [hr, if_neg hc]

theorem containsSub_singleton (s : Str) (c : Char) :
    containsSub s [c] = true ↔ c ∈ s := by
  induction s with
  | nil => simp [containsSub]
  | cons a rest ih => simp [containsSub, hasPrefix, ih, List.mem_cons]

theorem idAlt_ne_nil (s : Str) (h : idAlt s = true) : s ≠ [] := by
  intro hs
  subst hs
  exact absurd h (by decide)

theorem idAlt_has_dash (s : Str) (h : idAlt s = true) :
    containsSub s ['-'] = true := by
  rw [containsSub_singleton]
  by_contra hmem
  have hsd := splitDash_no_dash s hmem
  unfold idAlt at h
  rw [Bool.or_eq_true] at h
  rcases h with h1 | h1
  · unfold uuidAlt at h1
    rw [hsd] at h1
    cases h1
  · unfold ecidAlt at h1
    rw [hsd] at h1
    cases h1

theorem codeAccept_eq_specAccept (line : Str) : codeAccept line = specAccept line := by
  unfold codeAccept specAccept
  by_cases hid : idAlt (extractedId line) = true
  · have hne := idAlt_ne_nil _ hid
    have hdash := idAlt_has_dash _ hid
    simp [hid, hne, hdash]
  · have hre : reMatchLine line = false := by
      cases hre : reMatchLine line
      · rfl
      · exact absurd (reMatch_idAlt line hre) hid
    have hid' : idAlt (extractedId line) = false := by
      revert hid; cases idAlt (extractedId line) <;> simp
    rw [hre, hid']

/-- C8 amended: for a candidate line of a `Devices`/`Simulators` section
(non-header, non-empty, with a last `'('` that is not the line's first
character), the loop body adds the entry `(deviceNameOf, extractedId)`
exactly when the specification's acceptance condition holds — the extracted
identifier matches the UUID-like pattern or, failing that, is non-empty and
contains a hyphen or a hexadecimal character — and leaves the map unchanged
otherwise. -/
theorem section_line_entry_iff (sec : Str) (m : List (Str × Str)) (line : Str) (k : Nat)
    (hsec : sec = "== Devices ==".toList ∨ sec = "== Simulators ==".toList)
    (hnh : hasPrefix "== ".toList line = false)
    (hne : line ≠ [])
    (hk : lastIndexOf line '(' = some k) (hk0 : k ≠ 0) :
    devicesStep sec m line =
      some (sec, if specAccept line = true
                 then mapInsert m (deviceNameOf line) (extractedId line)
                 else m) := by
  have hoff : ¬ sec = "== Devices Offline ==".toList := by
    rcases hsec with h | h <;> (rw [h]; intro habs; exact absurd habs (by decide))
  have hnh' : ¬ hasPrefix "== ".toList line = true := by rw [hnh]; simp
  have h1 : decide (line = []) = false := decide_eq_false hne
  have h2 : decide (sec = "== Devices Offline ==".toList) = false := decide_eq_false hoff
  unfold devicesStep devicesBody
  rw [if_neg hnh', if_neg (by rw [h1, h2]; simp),
    if_pos (by rcases hsec with h | h <;> rw [h] <;> decide), hk]
  dsimp only
  rw [if_neg hk0, codeAccept_eq_specAccept]
  by_cases ha : specAccept line = true
  · rw [if_pos ha, if_pos ha]
    rfl
  · rw [if_neg ha, if_neg ha]
    rfl

/-- C8 amended witness: `section_line_entry_iff` at a concrete simulator
line, producing the expected entry. -/
theorem section_line_entry_iff_witness :
    hasPrefix "== ".toList
      "iPhone 15 (18.2) (ABCD1234-AB12-CD34-EF56-ABCDEF123456)".toList = false
    ∧ lastIndexOf
        "iPhone 15 (18.2) (ABCD1234-AB12-CD34-EF56-ABCDEF123456)".toList '(' = some 17
    ∧ devicesStep "== Simulators ==".toList []
        "iPhone 15 (18.2) (ABCD1234-AB12-CD34-EF56-ABCDEF123456)".toList =
      some ("== Simulators ==".toList,
        if specAccept "iPhone 15 (18.2) (ABCD1234-AB12-CD34-EF56-ABCDEF123456)".toList = true
        then mapInsert [] (deviceNameOf
              "iPhone 15 (18.2) (ABCD1234-AB12-CD34-EF56-ABCDEF123456)".toList)
            (extractedId "iPhone 15 (18.2) (ABCD1234-AB12-CD34-EF56-ABCDEF123456)".toList)
        else []) :=
  ⟨by decide, by decide,
    section_line_entry_iff "== Simulators ==".toList []
      "iPhone 15 (18.2) (ABCD1234-AB12-CD34-EF56-ABCDEF123456)".toList 17
      (Or.inr rfl) (by decide) (by decide) (by decide) (by decide)⟩

/-- C8 counterexample: the line `"(ABC)"` inside a `Devices` section
satisfies the claim's acceptance condition (its extracted identifier `"ABC"`
is non-empty and contains hexadecimal characters), yet it produces no
registry entry: the loop body aborts on the out-of-range name slice instead,
so the claimed equivalence fails when the last `'('` opens the line. -/
theorem section_line_entry_counterexample :
    specAccept "(ABC)".toList = true
    ∧ extractedId "(ABC)".toList = "ABC".toList
    ∧ devicesStep "== Devices ==".toList [] "(ABC)".toList = none
    ∧ GetDevicesText ["== Devices ==".toList, "(ABC)".toList] = .panic := by
  refine ⟨by decide, by decide, by decide, by decide⟩

/-- C10: the text device parser is not fault-free: a candidate line of a
`Devices` section whose only `'('` is its first character drives the Go
expression `line[:lastParenIndex-1]` to a negative slice bound, a runtime
panic — the scan aborts instead of returning a map or an error. -/
theorem text_parser_crash_at_leading_paren :
    devicesStep "== Devices ==".toList [] "(1234-ABCD)".toList = none
    ∧ GetDevicesText ["== Devices ==".toList, "(1234-ABCD)".toList] = .panic
    ∧ GetDevicesText ["== Devices ==".toList,
        "iPhone 15 (ABCD1234-AB12-CD34-EF56-ABCDEF123456)".toList]
      = .ok [("iPhone 15".toList, "ABCD1234-AB12-CD34-EF56-ABCDEF123456".toList)] := by
  refine ⟨by decide, by decide, by decide⟩

end XcodeRunner
